import Mathlib

/-!
Verification of the incremental vector-store synchronization engine and the
agent lifecycle cache of the Insurance-AI repository.

The Python sources embedded here are `app/vector_store_utils.py`
(`build_or_update_vector_store`, `split_text_into_documents`,
`load_processed_files`, `save_processed_files`, `is_valid_vector_store`,
`delete_pdf_and_reindex`) and `app/agent_manager.py` (`AgentManager`).

Modelling conventions:
  * The per-tenant filesystem state is a record `FS` holding the company PDF
    directory (existence flag and list of `*.pdf` basenames) and the vector
    store directory contents (`index.faiss` contents as an optional document
    list, `processed_files.json` as an optional filename list).
  * PDF text extraction (`extract_text_from_pdf`) performs I/O and may raise;
    it is modelled as an oracle `ext : String → Option (List TextChunk)`
    where `none` models the extraction raising an exception and `some l`
    models a successful return of the page-tagged text tuples.
  * The FAISS vector store is modelled by its document list:
    `FAISS.from_documents` builds it from the chunk documents,
    `add_documents` appends, `save_local` / `load_local` write / read the
    `indexOnDisk` field, and `len(index_to_docstore_id)` is the list length.
  * Exceptions are modelled with an explicit result type: `FileNotFoundError`
    is `SyncError.notFound` and `RuntimeError` is `SyncError.runtime`.
  * The result also records which files extraction was attempted on and
    whether the incremental path re-entered the rebuild path (the
    `rebuild=True` self-call on line 194 of `vector_store_utils.py`).
-/

/-- One tuple produced by `extract_text_from_pdf`: the page text (as a
character list), the 1-based page number and the source filename. -/
def TextChunk : Type := List Char × Nat × String

instance : DecidableEq TextChunk := by
  unfold TextChunk
  infer_instance

/-- A chunk document as built by `split_text_into_documents`
(`Document(page_content=chunk, metadata={"page": page_num, "source": filename})`). -/
structure Doc where
  content : List Char
  page : Nat
  source : String
deriving DecidableEq, Repr

/-- The chunk size of the `RecursiveCharacterTextSplitter` constructed in
`split_text_into_documents` (`vector_store_utils.py` line 47). -/
def splitter_chunk_size : Nat := 1000

/-- The chunk overlap of the `RecursiveCharacterTextSplitter` constructed in
`split_text_into_documents` (`vector_store_utils.py` line 47). -/
def splitter_chunk_overlap : Nat := 100

/-- Fuel-driven worker for `splitText`: emit a window of at most `size`
characters, then continue `step` characters further into the text. The fuel
starts at the text length, which bounds the number of windows whenever
`step ≥ 1`. -/
def splitTextGo (size step : Nat) : Nat → List Char → List (List Char)
  | 0, _ => []
  | _, [] => []
  | fuel + 1, s =>
    if s.length ≤ size then [s]
    else s.take size :: splitTextGo size step fuel (s.drop step)

/-- Model of `RecursiveCharacterTextSplitter(...).split_text`: a deterministic
split of the text into windows of at most `size` characters such that each
window starts `size - overlap` characters after the previous one, so that
consecutive windows share `overlap` characters. Empty text yields no chunks. -/
def splitText (size overlap : Nat) (s : List Char) : List (List Char) :=
  if s = [] then [] else splitTextGo size (size - overlap) s.length s

/-- `split_text_into_documents` (`vector_store_utils.py` lines 46–52): split
each extracted page text with the fixed 1000/100 splitter and tag every chunk
with the page number and source filename of its text. -/
def split_text_into_documents (text_chunks : List TextChunk) : List Doc :=
  text_chunks.flatMap fun tc =>
    (splitText splitter_chunk_size splitter_chunk_overlap tc.1).map fun c =>
      { content := c, page := tc.2.1, source := tc.2.2 }

/-- `is_valid_vector_store` (lines 54–62) on a loaded store modelled by its
document list: the loaded object is non-null and has the
`index_to_docstore_id` attribute, so only the zero-entries check can fail. -/
def is_valid_vector_store (docs : List Doc) : Bool :=
  decide (docs.length ≠ 0)

/-- `get_vector_store_document_count` (lines 64–68). -/
def get_vector_store_document_count (docs : List Doc) : Nat :=
  if is_valid_vector_store docs then docs.length else 0

/-- Per-tenant durable filesystem state: the company PDF directory and the
vector store directory (`index.faiss` plus `processed_files.json`). -/
structure FS where
  companyDirExists : Bool
  pdfFiles : List String
  indexOnDisk : Option (List Doc)
  ledgerOnDisk : Option (List String)
deriving DecidableEq, Repr

/-- `load_processed_files` (lines 14–20): the ledger file's contents, or the
empty set when no ledger file exists. -/
def load_processed_files (fs : FS) : List String :=
  fs.ledgerOnDisk.getD []

/-- The error classes `build_or_update_vector_store` raises:
`FileNotFoundError` and `RuntimeError`. -/
inductive SyncError where
  | notFound
  | runtime
deriving DecidableEq, Repr

/-- Return value of a sync call: the vector store's documents, or a raised
error. -/
inductive SyncRet where
  | ok (docs : List Doc)
  | err (e : SyncError)
deriving DecidableEq, Repr

/-- The outcome of one `build_or_update_vector_store` call: its return or
raised error, the filesystem afterwards, the files extraction was attempted
on (in order), and whether the incremental path re-entered the rebuild path
via the recursive `rebuild=True` call. -/
structure SyncResult where
  ret : SyncRet
  fs : FS
  extracted : List String
  recursedRebuild : Bool
deriving DecidableEq, Repr

/-- Python `set.add` on a ledger modelled as a duplicate-free list. -/
def addToSet (l : List String) (x : String) : List String :=
  if x ∈ l then l else l ++ [x]

/-- The extraction loop of the rebuild branch (lines 104–113): extract every
current PDF in order and concatenate the results; a file whose extraction
raises contributes nothing and is skipped (`continue`). -/
def allChunks (ext : String → Option (List TextChunk)) (fs : FS) : List TextChunk :=
  fs.pdfFiles.flatMap fun p => (ext p).getD []

/-- The rebuild branch (lines 102–154): run the extraction loop over all
current PDFs; fail with `RuntimeError` when no chunks at all were extracted
(lines 115–118) or no documents were produced (lines 122–125); otherwise
build a fresh store from all documents, save it, and save a ledger equal to
the full current filename set (line 152). -/
def syncRebuild (ext : String → Option (List TextChunk)) (fs : FS) : SyncResult :=
  if allChunks ext fs = [] then
    { ret := .err .runtime, fs := fs, extracted := fs.pdfFiles, recursedRebuild := false }
  else if split_text_into_documents (allChunks ext fs) = [] then
    { ret := .err .runtime, fs := fs, extracted := fs.pdfFiles, recursedRebuild := false }
  else
    { ret := .ok (split_text_into_documents (allChunks ext fs))
      fs := { fs with indexOnDisk := some (split_text_into_documents (allChunks ext fs)),
                      ledgerOnDisk := some fs.pdfFiles }
      extracted := fs.pdfFiles
      recursedRebuild := false }

/-- The loop over new PDFs (lines 199–210): starting from the loaded ledger,
extract and split each new PDF; on success append its documents and add its
filename to the in-memory ledger; a raised extraction is logged and skipped.
Returns the accumulated new documents and the updated in-memory ledger. -/
def incrLoop (ext : String → Option (List TextChunk)) :
    List Doc × List String → List String → List Doc × List String
  | acc, [] => acc
  | acc, p :: rest =>
    match ext p with
    | none => incrLoop ext acc rest
    | some chunks =>
      incrLoop ext (acc.1 ++ split_text_into_documents chunks, addToSet acc.2 p) rest

/-- The new PDFs of the incremental branch (line 187): the current directory
listing diffed against the loaded ledger. -/
def newPdfs (fs : FS) : List String :=
  fs.pdfFiles.filter fun p => ¬ p ∈ load_processed_files fs

/-- The incremental branch (lines 156–235), entered with the store loaded
from disk as `stored`:
  * with no new PDFs, return the loaded store if it is valid, else re-enter
    with `rebuild=True` (lines 190–196) — since the filesystem is unchanged,
    the re-entered call passes the same precondition checks and takes the
    rebuild branch, so the self-call is inlined as `syncRebuild` with the
    `recursedRebuild` flag set;
  * with new PDFs, run `incrLoop` over them and, when it produced documents,
    append them to the store, save the store and the updated ledger
    (lines 212–231); when it produced none, return the loaded store
    unchanged (lines 232–233). -/
def syncIncremental (ext : String → Option (List TextChunk))
    (fs : FS) (stored : List Doc) : SyncResult :=
  if newPdfs fs = [] then
    if is_valid_vector_store stored then
      { ret := .ok stored, fs := fs, extracted := [], recursedRebuild := false }
    else
      { syncRebuild ext fs with recursedRebuild := true }
  else if (incrLoop ext ([], load_processed_files fs) (newPdfs fs)).1 = [] then
    { ret := .ok stored, fs := fs, extracted := newPdfs fs, recursedRebuild := false }
  else
    { ret := .ok (stored ++ (incrLoop ext ([], load_processed_files fs) (newPdfs fs)).1)
      fs := { fs with
        indexOnDisk := some (stored ++ (incrLoop ext ([], load_processed_files fs) (newPdfs fs)).1),
        ledgerOnDisk := some (incrLoop ext ([], load_processed_files fs) (newPdfs fs)).2 }
      extracted := newPdfs fs
      recursedRebuild := false }

/-- `build_or_update_vector_store` (lines 70–235): the directory/PDF
preconditions (lines 88–100) raise `FileNotFoundError`; then either the
rebuild branch runs (line 102: `rebuild` set or no `index.faiss` on disk) or
the incremental branch runs on the store loaded from disk (lines 156–235). -/
def build_or_update_vector_store (ext : String → Option (List TextChunk))
    (fs : FS) (rebuild : Bool) : SyncResult :=
  if fs.companyDirExists = false then
    { ret := .err .notFound, fs := fs, extracted := [], recursedRebuild := false }
  else if fs.pdfFiles = [] then
    { ret := .err .notFound, fs := fs, extracted := [], recursedRebuild := false }
  else
    match fs.indexOnDisk, rebuild with
    | none, _ => syncRebuild ext fs
    | some _, true => syncRebuild ext fs
    | some stored, false => syncIncremental ext fs stored

/-- `delete_pdf_and_reindex` (lines 237–241): remove the file if present,
then force a rebuild. -/
def delete_pdf_and_reindex (ext : String → Option (List TextChunk))
    (fs : FS) (filename : String) : SyncResult :=
  let fs1 :=
    if filename ∈ fs.pdfFiles then { fs with pdfFiles := fs.pdfFiles.erase filename }
    else fs
  build_or_update_vector_store ext fs1 true

/-!
## Agent lifecycle cache (`app/agent_manager.py`)

Modelling conventions:
  * Company ids are `Nat`, wall-clock times are `Int` seconds (every
    `time.time()` read during one call is the single parameter `now`).
  * Agent objects are opaque: each constructed agent is identified by a
    fresh token drawn from a counter `nextAgentId`; `_create_agent`'s
    provider calls are injected capabilities, modelled as succeeding and
    returning the fresh agent object.
  * `ConversationBufferMemory` objects are opaque (`Mem`).
  * Python dicts keyed by company id are association lists with dict
    semantics: update-in-place when the key is present, append otherwise.
-/

/-- An opaque `ConversationBufferMemory` object. -/
inductive Mem where
  | buffer
deriving DecidableEq, Repr

/-- One value of the `self.agents` dict: the agent object (an opaque token)
and its creation timestamp (`company_id`/`company_name` are redundant with
the key and dropped). -/
structure AgentInfo where
  agent : Nat
  created_at : Int
deriving DecidableEq, Repr

/-- Dict lookup on an association list. -/
def alookup {α : Type} (l : List (Nat × α)) (k : Nat) : Option α :=
  (l.find? fun p => p.1 = k).map fun p => p.2

/-- Dict assignment: replace in place when present, append when absent. -/
def aupdate {α : Type} (l : List (Nat × α)) (k : Nat) (v : α) : List (Nat × α) :=
  if l.any fun p => p.1 = k then
    l.map fun p => if p.1 = k then (k, v) else p
  else l ++ [(k, v)]

/-- Dict deletion. -/
def aerase {α : Type} (l : List (Nat × α)) (k : Nat) : List (Nat × α) :=
  l.filter fun p => ¬ p.1 = k

/-- The mutable state of an `AgentManager` (`__init__`, lines 20–25), plus
the fresh-token counter for constructed agent objects. -/
structure AMState where
  agents : List (Nat × AgentInfo)
  memories : List (Nat × Mem)
  max_agents : Nat
  agent_ttl : Int
  last_used : List (Nat × Int)
  nextAgentId : Nat
deriving DecidableEq, Repr

/-- `AgentManager(max_agents, agent_ttl)`: empty dicts. -/
def AMState.init (max_agents : Nat) (agent_ttl : Int) : AMState :=
  { agents := [], memories := [], max_agents := max_agents,
    agent_ttl := agent_ttl, last_used := [], nextAgentId := 0 }

/-- `_remove_agent` (lines 265–274): when the id is a key of `agents`,
delete it from `agents`, `last_used` and `memories`; otherwise no-op. -/
def removeAgent (s : AMState) (cid : Nat) : AMState :=
  if alookup s.agents cid = none then s
  else
    { s with agents := aerase s.agents cid,
             last_used := aerase s.last_used cid,
             memories := aerase s.memories cid }

/-- `_cleanup_old_agents` (lines 303–315): collect the ids whose last use is
strictly more than `agent_ttl` seconds ago, then remove each. -/
def cleanupOldAgents (s : AMState) (now : Int) : AMState :=
  let to_remove := (s.last_used.filter fun p => now - p.2 > s.agent_ttl).map fun p => p.1
  to_remove.foldl removeAgent s

/-- The agent-creation tail of `get_agent` (lines 67–83): construct a fresh
agent, store its info and last-used time, run the cleanup sweep, and return
the agent. -/
def createAgent (s : AMState) (cid : Nat) (now : Int) : Nat × AMState :=
  let a := s.nextAgentId
  let s1 := { s with
    agents := aupdate s.agents cid { agent := a, created_at := now },
    last_used := aupdate s.last_used cid now,
    nextAgentId := a + 1 }
  (a, cleanupOldAgents s1 now)

/-- `get_agent` (lines 51–83): when a cached agent exists and
`now - last_used.get(cid, 0) < agent_ttl`, refresh `last_used` and return
the cached agent; otherwise remove any expired entry and create a new
agent. -/
def get_agent (s : AMState) (cid : Nat) (now : Int) : Nat × AMState :=
  match alookup s.agents cid with
  | some info =>
    if now - ((alookup s.last_used cid).getD 0) < s.agent_ttl then
      (info.agent, { s with last_used := aupdate s.last_used cid now })
    else
      createAgent (removeAgent s cid) cid now
  | none => createAgent s cid now

/-- `reset_agent_memory` (lines 235–243): when the id is a key of
`memories`, overwrite that entry with a fresh buffer and return `True`;
otherwise return `False`. -/
def reset_agent_memory (s : AMState) (cid : Nat) : Bool × AMState :=
  if alookup s.memories cid = none then (false, s)
  else (true, { s with memories := aupdate s.memories cid Mem.buffer })

/-- `clear_agent_memory` (lines 245–263): clears the memory held inside the
agent object (opaque here), touching no manager state; returns whether a
cached agent with clearable memory existed. -/
def clear_agent_memory (s : AMState) (cid : Nat) : Bool × AMState :=
  ((alookup s.agents cid).isSome, s)

/-- `force_remove_agent` (lines 276–283). -/
def force_remove_agent (s : AMState) (cid : Nat) : Bool × AMState :=
  match alookup s.agents cid with
  | some _ => (true, removeAgent s cid)
  | none => (false, s)

/-- `force_update_agent` (lines 285–292): identical state effect to
`force_remove_agent`. -/
def force_update_agent (s : AMState) (cid : Nat) : Bool × AMState :=
  force_remove_agent s cid

/-- The manager states reachable from a freshly constructed `AgentManager`
by any sequence of its public operations. -/
inductive Reachable : AMState → Prop where
  | init (max_agents : Nat) (agent_ttl : Int) :
      Reachable (AMState.init max_agents agent_ttl)
  | step_get (s : AMState) (cid : Nat) (now : Int) :
      Reachable s → Reachable (get_agent s cid now).2
  | step_reset (s : AMState) (cid : Nat) :
      Reachable s → Reachable (reset_agent_memory s cid).2
  | step_clear (s : AMState) (cid : Nat) :
      Reachable s → Reachable (clear_agent_memory s cid).2
  | step_force_remove (s : AMState) (cid : Nat) :
      Reachable s → Reachable (force_remove_agent s cid).2
  | step_force_update (s : AMState) (cid : Nat) :
      Reachable s → Reachable (force_update_agent s cid).2

/-! ### Helper lemmas about the synchronizer -/

theorem split_text_into_documents_nil : split_text_into_documents [] = [] := rfl

theorem syncRebuild_extracted (ext : String → Option (List TextChunk)) (fs : FS) :
    (syncRebuild ext fs).extracted = fs.pdfFiles := by
  unfold syncRebuild
  split
  · rfl
  · split <;> rfl

theorem syncRebuild_recursed (ext : String → Option (List TextChunk)) (fs : FS) :
    (syncRebuild ext fs).recursedRebuild = false := by
  unfold syncRebuild
  split
  · rfl
  · split <;> rfl

theorem syncRebuild_no_notFound (ext : String → Option (List TextChunk)) (fs : FS) :
    (syncRebuild ext fs).ret ≠ .err .notFound := by
  unfold syncRebuild
  split
  · simp
  · split <;> simp

theorem syncRebuild_of_chunks_empty (ext : String → Option (List TextChunk)) (fs : FS)
    (h : allChunks ext fs = []) :
    syncRebuild ext fs =
      { ret := .err .runtime, fs := fs, extracted := fs.pdfFiles, recursedRebuild := false } := by
  unfold syncRebuild
  rw [if_pos h]

theorem syncRebuild_of_docs (ext : String → Option (List TextChunk)) (fs : FS)
    (h : split_text_into_documents (allChunks ext fs) ≠ []) :
    syncRebuild ext fs =
      { ret := .ok (split_text_into_documents (allChunks ext fs))
        fs := { fs with indexOnDisk := some (split_text_into_documents (allChunks ext fs)),
                        ledgerOnDisk := some fs.pdfFiles }
        extracted := fs.pdfFiles
        recursedRebuild := false } := by
  have h0 : allChunks ext fs ≠ [] := by
    intro e
    exact h (by rw [e, split_text_into_documents_nil])
  unfold syncRebuild
  rw [if_neg h0, if_neg h]

theorem syncIncremental_no_notFound (ext : String → Option (List TextChunk))
    (fs : FS) (stored : List Doc) :
    (syncIncremental ext fs stored).ret ≠ .err .notFound := by
  unfold syncIncremental
  split
  · split
    · simp
    · exact syncRebuild_no_notFound ext fs
  · split <;> simp

theorem mem_addToSet {l : List String} {p x : String} :
    x ∈ addToSet l p ↔ x ∈ l ∨ x = p := by
  unfold addToSet
  split
  · rename_i hp
    constructor
    · exact Or.inl
    · rintro (h | rfl)
      · exact h
      · exact hp
  · simp [List.mem_append]

theorem incrLoop_ledger_mem (ext : String → Option (List TextChunk)) :
    ∀ (l : List String) (acc : List Doc × List String) (x : String),
      x ∈ (incrLoop ext acc l).2 → x ∈ acc.2 ∨ (x ∈ l ∧ ext x ≠ none) := by
  intro l
  induction l with
  | nil => intro acc x hx; exact Or.inl hx
  | cons p rest ih =>
    intro acc x hx
    unfold incrLoop at hx
    rcases hp : ext p with _ | chunks
    · rw [hp] at hx
      rcases ih acc x hx with h | ⟨h1, h2⟩
      · exact Or.inl h
      · exact Or.inr ⟨List.mem_cons_of_mem p h1, h2⟩
    · rw [hp] at hx
      rcases ih _ x hx with h | ⟨h1, h2⟩
      · rcases mem_addToSet.mp h with h | rfl
        · exact Or.inl h
        · exact Or.inr ⟨List.mem_cons_self _ _, by rw [hp]; exact fun e => Option.noConfusion e⟩
      · exact Or.inr ⟨List.mem_cons_of_mem p h1, h2⟩

theorem incrLoop_ledger_mono (ext : String → Option (List TextChunk)) :
    ∀ (l : List String) (acc : List Doc × List String) (x : String),
      x ∈ acc.2 → x ∈ (incrLoop ext acc l).2 := by
  intro l
  induction l with
  | nil => intro acc x hx; exact hx
  | cons p rest ih =>
    intro acc x hx
    unfold incrLoop
    rcases hp : ext p with _ | chunks
    · exact ih acc x hx
    · exact ih _ x (mem_addToSet.mpr (Or.inl hx))

theorem incrLoop_ledger_of_success (ext : String → Option (List TextChunk)) :
    ∀ (l : List String) (acc : List Doc × List String) (p : String),
      p ∈ l → ext p ≠ none → p ∈ (incrLoop ext acc l).2 := by
  intro l
  induction l with
  | nil => intro acc p hp; exact absurd hp (List.not_mem_nil p)
  | cons q rest ih =>
    intro acc p hp hs
    unfold incrLoop
    rcases hq : ext q with _ | chunks
    · rcases List.mem_cons.mp hp with rfl | hp'
      · exact absurd hq hs
      · exact ih acc p hp' hs
    · rcases List.mem_cons.mp hp with rfl | hp'
      · exact incrLoop_ledger_mono ext rest _ p (mem_addToSet.mpr (Or.inr rfl))
      · exact ih _ p hp' hs

theorem incrLoop_all_fail (ext : String → Option (List TextChunk)) :
    ∀ (l : List String) (acc : List Doc × List String),
      (∀ p ∈ l, ext p = none) → incrLoop ext acc l = acc := by
  intro l
  induction l with
  | nil => intro acc _; rfl
  | cons p rest ih =>
    intro acc h
    unfold incrLoop
    rw [h p (List.mem_cons_self _ _)]
    exact ih acc fun q hq => h q (List.mem_cons_of_mem p hq)

theorem syncRebuild_dir_pdfs (ext : String → Option (List TextChunk)) (fs : FS) :
    (syncRebuild ext fs).fs.companyDirExists = fs.companyDirExists ∧
    (syncRebuild ext fs).fs.pdfFiles = fs.pdfFiles := by
  unfold syncRebuild
  split
  · exact ⟨rfl, rfl⟩
  · split <;> exact ⟨rfl, rfl⟩

theorem syncIncremental_dir_pdfs (ext : String → Option (List TextChunk))
    (fs : FS) (stored : List Doc) :
    (syncIncremental ext fs stored).fs.companyDirExists = fs.companyDirExists ∧
    (syncIncremental ext fs stored).fs.pdfFiles = fs.pdfFiles := by
  unfold syncIncremental
  split
  · split
    · exact ⟨rfl, rfl⟩
    · exact syncRebuild_dir_pdfs ext fs
  · split <;> exact ⟨rfl, rfl⟩

theorem sync_dir_pdfs (ext : String → Option (List TextChunk)) (fs : FS) (rebuild : Bool) :
    (build_or_update_vector_store ext fs rebuild).fs.companyDirExists = fs.companyDirExists ∧
    (build_or_update_vector_store ext fs rebuild).fs.pdfFiles = fs.pdfFiles := by
  unfold build_or_update_vector_store
  split
  · exact ⟨rfl, rfl⟩
  · split
    · exact ⟨rfl, rfl⟩
    · split
      · exact syncRebuild_dir_pdfs ext fs
      · exact syncRebuild_dir_pdfs ext fs
      · exact syncIncremental_dir_pdfs ext fs _

/-- On every success the saved (or still-on-disk) index holds exactly the
returned documents. -/
theorem syncRebuild_ok_index (ext : String → Option (List TextChunk)) (fs : FS)
    (d : List Doc) (h : (syncRebuild ext fs).ret = .ok d) :
    (syncRebuild ext fs).fs.indexOnDisk = some d := by
  unfold syncRebuild at h ⊢
  split at h
  · exact absurd h (by simp)
  · split at h
    · exact absurd h (by simp)
    · rename_i h1 h2
      rw [if_neg h1, if_neg h2]
      cases h
      rfl

theorem is_valid_iff (d : List Doc) : is_valid_vector_store d = true ↔ d ≠ [] := by
  unfold is_valid_vector_store
  simp [List.length_eq_zero]

theorem sync_eq_notFound (ext : String → Option (List TextChunk)) (fs : FS) (rebuild : Bool)
    (h : fs.companyDirExists = false ∨ fs.pdfFiles = []) :
    build_or_update_vector_store ext fs rebuild =
      { ret := .err .notFound, fs := fs, extracted := [], recursedRebuild := false } := by
  unfold build_or_update_vector_store
  rcases h with h | h
  · rw [if_pos h]
  · by_cases h1 : fs.companyDirExists = false
    · rw [if_pos h1]
    · rw [if_neg h1, if_pos h]

theorem sync_eq_rebuild (ext : String → Option (List TextChunk)) (fs : FS) (rebuild : Bool)
    (h1 : fs.companyDirExists = true) (h2 : fs.pdfFiles ≠ [])
    (h3 : rebuild = true ∨ fs.indexOnDisk = none) :
    build_or_update_vector_store ext fs rebuild = syncRebuild ext fs := by
  have h1' : ¬ fs.companyDirExists = false := by rw [h1]; simp
  unfold build_or_update_vector_store
  rw [if_neg h1', if_neg h2]
  rcases h3 with rfl | h3
  · cases fs.indexOnDisk <;> rfl
  · rw [h3]

theorem sync_eq_incr (ext : String → Option (List TextChunk)) (fs : FS) (stored : List Doc)
    (h1 : fs.companyDirExists = true) (h2 : fs.pdfFiles ≠ [])
    (h3 : fs.indexOnDisk = some stored) :
    build_or_update_vector_store ext fs false = syncIncremental ext fs stored := by
  have h1' : ¬ fs.companyDirExists = false := by rw [h1]; simp
  unfold build_or_update_vector_store
  rw [if_neg h1', if_neg h2, h3]

theorem incr_eq_noop (ext : String → Option (List TextChunk)) (fs : FS) (stored : List Doc)
    (h1 : newPdfs fs = []) (h2 : stored ≠ []) :
    syncIncremental ext fs stored =
      { ret := .ok stored, fs := fs, extracted := [], recursedRebuild := false } := by
  unfold syncIncremental
  rw [if_pos h1, if_pos ((is_valid_iff stored).mpr h2)]

theorem incr_eq_recurse (ext : String → Option (List TextChunk)) (fs : FS)
    (h1 : newPdfs fs = []) :
    syncIncremental ext fs [] = { syncRebuild ext fs with recursedRebuild := true } := by
  unfold syncIncremental
  rw [if_pos h1, if_neg]
  simp [is_valid_vector_store]

theorem incr_eq_nodocs (ext : String → Option (List TextChunk)) (fs : FS) (stored : List Doc)
    (h1 : newPdfs fs ≠ [])
    (h2 : (incrLoop ext ([], load_processed_files fs) (newPdfs fs)).1 = []) :
    syncIncremental ext fs stored =
      { ret := .ok stored, fs := fs, extracted := newPdfs fs, recursedRebuild := false } := by
  unfold syncIncremental
  rw [if_neg h1, if_pos h2]

theorem incr_eq_save (ext : String → Option (List TextChunk)) (fs : FS) (stored : List Doc)
    (h1 : newPdfs fs ≠ [])
    (h2 : (incrLoop ext ([], load_processed_files fs) (newPdfs fs)).1 ≠ []) :
    syncIncremental ext fs stored =
      { ret := .ok (stored ++ (incrLoop ext ([], load_processed_files fs) (newPdfs fs)).1)
        fs := { fs with
          indexOnDisk := some (stored ++ (incrLoop ext ([], load_processed_files fs) (newPdfs fs)).1),
          ledgerOnDisk := some (incrLoop ext ([], load_processed_files fs) (newPdfs fs)).2 }
        extracted := newPdfs fs
        recursedRebuild := false } := by
  unfold syncIncremental
  rw [if_neg h1, if_neg h2]

theorem sync_ok_index (ext : String → Option (List TextChunk)) (fs : FS)
    (rebuild : Bool) (d : List Doc)
    (h : (build_or_update_vector_store ext fs rebuild).ret = .ok d) :
    (build_or_update_vector_store ext fs rebuild).fs.indexOnDisk = some d := by
  by_cases hpre : fs.companyDirExists = false ∨ fs.pdfFiles = []
  · rw [sync_eq_notFound ext fs rebuild hpre] at h
    exact absurd h (by simp)
  · obtain ⟨hd, hp⟩ := not_or.mp hpre
    have hd' : fs.companyDirExists = true := by simpa using hd
    rcases hidx : fs.indexOnDisk with _ | stored
    · rw [sync_eq_rebuild ext fs rebuild hd' hp (Or.inr hidx)] at h ⊢
      exact syncRebuild_ok_index ext fs d h
    · cases rebuild
      · rw [sync_eq_incr ext fs stored hd' hp hidx] at h ⊢
        by_cases hnew : newPdfs fs = []
        · by_cases hst : stored = []
          · subst hst
            rw [incr_eq_recurse ext fs hnew] at h ⊢
            exact syncRebuild_ok_index ext fs d h
          · rw [incr_eq_noop ext fs stored hnew hst] at h ⊢
            simp only [SyncRet.ok.injEq] at h
            subst h
            exact hidx
        · by_cases hstep : (incrLoop ext ([], load_processed_files fs) (newPdfs fs)).1 = []
          · rw [incr_eq_nodocs ext fs stored hnew hstep] at h ⊢
            simp only [SyncRet.ok.injEq] at h
            subst h
            exact hidx
          · rw [incr_eq_save ext fs stored hnew hstep] at h ⊢
            simp only [SyncRet.ok.injEq] at h
            subst h
            rfl
      · rw [sync_eq_rebuild ext fs true hd' hp (Or.inl rfl)] at h ⊢
        exact syncRebuild_ok_index ext fs d h

theorem sync_no_notFound_of_content (ext : String → Option (List TextChunk))
    (fs : FS) (rebuild : Bool)
    (hd : fs.companyDirExists = true) (hp : fs.pdfFiles ≠ []) :
    (build_or_update_vector_store ext fs rebuild).ret ≠ .err .notFound := by
  rcases hidx : fs.indexOnDisk with _ | stored
  · rw [sync_eq_rebuild ext fs rebuild hd hp (Or.inr hidx)]
    exact syncRebuild_no_notFound ext fs
  · cases rebuild
    · rw [sync_eq_incr ext fs stored hd hp hidx]
      exact syncIncremental_no_notFound ext fs stored
    · rw [sync_eq_rebuild ext fs true hd hp (Or.inl rfl)]
      exact syncRebuild_no_notFound ext fs

/-! ### The claims -/

/-- C5: a sync call fails with the NotFound error class (`FileNotFoundError`,
distinct from the Runtime class) exactly when the tenant's PDF directory does
not exist or contains no `*.pdf` files; and in that case the call has touched
nothing: the filesystem is unchanged and no extraction was attempted, i.e.
the check precedes any rebuild/incremental work. -/
theorem C5_notFound_iff (ext : String → Option (List TextChunk)) (fs : FS) (rebuild : Bool) :
    ((build_or_update_vector_store ext fs rebuild).ret = .err .notFound
        ↔ (fs.companyDirExists = false ∨ fs.pdfFiles = []))
    ∧ ((fs.companyDirExists = false ∨ fs.pdfFiles = []) →
        (build_or_update_vector_store ext fs rebuild).fs = fs
        ∧ (build_or_update_vector_store ext fs rebuild).extracted = []) := by
  by_cases hpre : fs.companyDirExists = false ∨ fs.pdfFiles = []
  · rw [sync_eq_notFound ext fs rebuild hpre]
    exact ⟨⟨fun _ => hpre, fun _ => rfl⟩, fun _ => ⟨rfl, rfl⟩⟩
  · obtain ⟨hd, hp⟩ := not_or.mp hpre
    have hd' : fs.companyDirExists = true := by simpa using hd
    have hne := sync_no_notFound_of_content ext fs rebuild hd' hp
    exact ⟨⟨fun h => absurd h hne, fun h => absurd h hpre⟩, fun h => absurd h hpre⟩

/-- C10: deleting the only PDF of a tenant via `delete_pdf_and_reindex`
removes the file from disk, then the forced rebuild raises the NotFound
error; the index and ledger previously persisted are left on disk unchanged
and the deletion is not undone. -/
theorem C10_delete_last_pdf (ext : String → Option (List TextChunk)) (fs : FS) (f : String)
    (hdir : fs.companyDirExists = true)
    (hone : fs.pdfFiles = [f]) :
    delete_pdf_and_reindex ext fs f =
      { ret := .err .notFound,
        fs := { fs with pdfFiles := [] },
        extracted := [],
        recursedRebuild := false } := by
  have hmem : f ∈ fs.pdfFiles := by
    rw [hone]
    exact List.mem_singleton_self f
  have herase : fs.pdfFiles.erase f = [] := by
    rw [hone, List.erase_cons_head]
  simp only [delete_pdf_and_reindex]
  rw [if_pos hmem]
  exact sync_eq_notFound ext { fs with pdfFiles := fs.pdfFiles.erase f } true
    (Or.inr herase) |>.trans (by rw [herase])

/-- Witness for C10 at a concrete one-file tenant with a persisted index and
ledger. -/
theorem C10_delete_last_pdf_witness :
    delete_pdf_and_reindex (fun _ => none)
      { companyDirExists := true, pdfFiles := ["a.pdf"],
        indexOnDisk := some [{ content := ['x'], page := 1, source := "a.pdf" }],
        ledgerOnDisk := some ["a.pdf"] } "a.pdf" =
      { ret := .err .notFound,
        fs := { companyDirExists := true, pdfFiles := [],
                indexOnDisk := some [{ content := ['x'], page := 1, source := "a.pdf" }],
                ledgerOnDisk := some ["a.pdf"] },
        extracted := [],
        recursedRebuild := false } :=
  C10_delete_last_pdf (fun _ => none)
    { companyDirExists := true, pdfFiles := ["a.pdf"],
      indexOnDisk := some [{ content := ['x'], page := 1, source := "a.pdf" }],
      ledgerOnDisk := some ["a.pdf"] } "a.pdf" rfl rfl

theorem syncRebuild_ok_ledger (ext : String → Option (List TextChunk)) (fs : FS)
    (h : (syncRebuild ext fs).ret ≠ .err .runtime) :
    (syncRebuild ext fs).fs.ledgerOnDisk = some fs.pdfFiles := by
  unfold syncRebuild at h ⊢
  split at h
  · exact absurd rfl h
  · split at h
    · exact absurd rfl h
    · rename_i h1 h2
      rw [if_neg h1, if_neg h2]

/-- The extraction oracle used in the C1 counterexample: `a.pdf` yields one
page of text, `b.pdf` (and everything else) raises. -/
def extC1 : String → Option (List TextChunk) := fun f =>
  if f = "a.pdf" then some [(['x'], 1, "a.pdf")] else none

/-- The tenant filesystem of the C1 counterexample: two PDFs on disk and no
vector store yet. -/
def fsC1 : FS :=
  { companyDirExists := true, pdfFiles := ["a.pdf", "b.pdf"],
    indexOnDisk := none, ledgerOnDisk := none }

/-- C1 counterexample: during a rebuild over `{a.pdf, b.pdf}` in which the
extraction of `b.pdf` fails, the call succeeds and the ledger it persists
nevertheless contains `b.pdf` — the ledger is not a subset of the files whose
extraction succeeded. -/
theorem C1_counterexample :
    extC1 "b.pdf" = none ∧
    (build_or_update_vector_store extC1 fsC1 true).ret =
      .ok [{ content := ['x'], page := 1, source := "a.pdf" }] ∧
    "b.pdf" ∈ (build_or_update_vector_store extC1 fsC1 true).fs.ledgerOnDisk.getD [] := by
  decide

/-- C1 (amended): on the incremental path every filename in the ledger the
call leaves on disk was already in the loaded ledger or had its extraction
succeed during the call; on the rebuild path a successful rebuild persists a
ledger equal to the full current filename set, which contains every PDF whose
extraction failed during that rebuild. -/
theorem C1_amended_ledger (ext : String → Option (List TextChunk)) (fs : FS) (stored : List Doc)
    (hd : fs.companyDirExists = true) (hp : fs.pdfFiles ≠ [])
    (hidx : fs.indexOnDisk = some stored) :
    (∀ l, (build_or_update_vector_store ext fs false).fs.ledgerOnDisk = some l →
      ∀ x ∈ l, x ∈ load_processed_files fs ∨ ext x ≠ none) ∧
    ((build_or_update_vector_store ext fs true).ret ≠ .err .runtime →
      (build_or_update_vector_store ext fs true).fs.ledgerOnDisk = some fs.pdfFiles) := by
  constructor
  · rw [sync_eq_incr ext fs stored hd hp hidx]
    by_cases hnew : newPdfs fs = []
    · have hall : ∀ x ∈ fs.pdfFiles, x ∈ load_processed_files fs := by
        intro x hx
        have := List.filter_eq_nil_iff.mp hnew x hx
        simpa using this
      by_cases hst : stored = []
      · subst hst
        rw [incr_eq_recurse ext fs hnew]
        intro l hl x hx
        by_cases hrt : (syncRebuild ext fs).ret = .err .runtime
        · have hfs : (syncRebuild ext fs).fs = fs := by
            unfold syncRebuild at hrt ⊢
            split at hrt
            · rename_i h1
              rw [if_pos h1]
            · split at hrt
              · rename_i h1 h2
                rw [if_neg h1, if_pos h2]
              · exact absurd hrt (by simp)
          rw [hfs] at hl
          left
          unfold load_processed_files
          rw [hl]
          exact hx
        · have := syncRebuild_ok_ledger ext fs hrt
          rw [this] at hl
          cases hl
          exact Or.inl (hall x hx)
      · rw [incr_eq_noop ext fs stored hnew hst]
        intro l hl x hx
        left
        unfold load_processed_files
        rw [hl]
        exact hx
    · by_cases hstep : (incrLoop ext ([], load_processed_files fs) (newPdfs fs)).1 = []
      · rw [incr_eq_nodocs ext fs stored hnew hstep]
        intro l hl x hx
        left
        unfold load_processed_files
        rw [hl]
        exact hx
      · rw [incr_eq_save ext fs stored hnew hstep]
        intro l hl x hx
        cases hl
        rcases incrLoop_ledger_mem ext (newPdfs fs) _ x hx with h | ⟨_, h2⟩
        · exact Or.inl h
        · exact Or.inr h2
  · rw [sync_eq_rebuild ext fs true hd hp (Or.inl rfl)]
    exact syncRebuild_ok_ledger ext fs

/-- Witness for C1 (amended): a concrete tenant with an index on disk. -/
theorem C1_amended_ledger_witness :
    (∀ l, (build_or_update_vector_store extC1
        { companyDirExists := true, pdfFiles := ["a.pdf"],
          indexOnDisk := some [{ content := ['x'], page := 1, source := "a.pdf" }],
          ledgerOnDisk := some ["a.pdf"] } false).fs.ledgerOnDisk = some l →
      ∀ x ∈ l, x ∈ load_processed_files
        { companyDirExists := true, pdfFiles := ["a.pdf"],
          indexOnDisk := some [{ content := ['x'], page := 1, source := "a.pdf" }],
          ledgerOnDisk := some ["a.pdf"] } ∨ extC1 x ≠ none) ∧
    ((build_or_update_vector_store extC1
        { companyDirExists := true, pdfFiles := ["a.pdf"],
          indexOnDisk := some [{ content := ['x'], page := 1, source := "a.pdf" }],
          ledgerOnDisk := some ["a.pdf"] } true).ret ≠ .err .runtime →
      (build_or_update_vector_store extC1
        { companyDirExists := true, pdfFiles := ["a.pdf"],
          indexOnDisk := some [{ content := ['x'], page := 1, source := "a.pdf" }],
          ledgerOnDisk := some ["a.pdf"] } true).fs.ledgerOnDisk = some ["a.pdf"]) :=
  C1_amended_ledger extC1
    { companyDirExists := true, pdfFiles := ["a.pdf"],
      indexOnDisk := some [{ content := ['x'], page := 1, source := "a.pdf" }],
      ledgerOnDisk := some ["a.pdf"] }
    [{ content := ['x'], page := 1, source := "a.pdf" }]
    rfl (by decide) rfl

/-- The extraction oracle of the C2 counterexample: `b.pdf` extracts to one
page of text. -/
def extC2 : String → Option (List TextChunk) := fun f =>
  if f = "b.pdf" then some [(['y'], 1, "b.pdf")] else none

/-- The tenant filesystem of the C2 counterexample: an index file is present
on disk but holds zero entries, the ledger is empty, and `b.pdf` is a new
file. -/
def fsC2 : FS :=
  { companyDirExists := true, pdfFiles := ["b.pdf"],
    indexOnDisk := some [], ledgerOnDisk := some [] }

/-- C2 counterexample: with a loaded index of zero entries but a new PDF
present, the incremental call does not recurse into the rebuild path — it
takes the incremental-add route instead, contradicting "regardless of
whether new files are present". -/
theorem C2_counterexample :
    fsC2.indexOnDisk = some [] ∧
    newPdfs fsC2 = ["b.pdf"] ∧
    (build_or_update_vector_store extC2 fsC2 false).recursedRebuild = false := by
  decide

/-- C2 (amended): on the incremental path the call recurses into the rebuild
path exactly when there are no new files **and** the loaded index has zero
entries; when new files are present the incremental path proceeds without
recursing, regardless of the loaded index's entry count. -/
theorem C2_amended_recursion (ext : String → Option (List TextChunk)) (fs : FS)
    (stored : List Doc)
    (hd : fs.companyDirExists = true) (hp : fs.pdfFiles ≠ [])
    (hidx : fs.indexOnDisk = some stored) :
    (build_or_update_vector_store ext fs false).recursedRebuild = true ↔
      (newPdfs fs = [] ∧ stored = []) := by
  rw [sync_eq_incr ext fs stored hd hp hidx]
  by_cases hnew : newPdfs fs = []
  · by_cases hst : stored = []
    · subst hst
      rw [incr_eq_recurse ext fs hnew]
      simp [hnew]
    · rw [incr_eq_noop ext fs stored hnew hst]
      simp [hst]
  · by_cases hstep : (incrLoop ext ([], load_processed_files fs) (newPdfs fs)).1 = []
    · rw [incr_eq_nodocs ext fs stored hnew hstep]
      simp [hnew]
    · rw [incr_eq_save ext fs stored hnew hstep]
      simp [hnew]

/-- Witness for C2 (amended) at a concrete tenant whose index has zero
entries and whose directory holds one new PDF. -/
theorem C2_amended_recursion_witness :
    (build_or_update_vector_store extC2 fsC2 false).recursedRebuild = true ↔
      (newPdfs fsC2 = [] ∧ ([] : List Doc) = []) :=
  C2_amended_recursion extC2 fsC2 [] rfl (by decide) rfl

/-- C6: on the rebuild path, extraction is attempted on every current PDF —
an individual failure is skipped and does not abort the batch; if the
extraction pass yields an empty chunk set the call fails with the Runtime
error class and persists nothing (the filesystem is unchanged, so no empty
index is saved); and whenever the surviving chunks produce documents the
call succeeds despite any individual failures. -/
theorem C6_rebuild_fault_handling (ext : String → Option (List TextChunk)) (fs : FS)
    (hd : fs.companyDirExists = true) (hp : fs.pdfFiles ≠ []) :
    (build_or_update_vector_store ext fs true).extracted = fs.pdfFiles ∧
    (allChunks ext fs = [] →
      (build_or_update_vector_store ext fs true).ret = .err .runtime ∧
      (build_or_update_vector_store ext fs true).fs = fs) ∧
    (split_text_into_documents (allChunks ext fs) ≠ [] →
      (build_or_update_vector_store ext fs true).ret =
        .ok (split_text_into_documents (allChunks ext fs))) := by
  rw [sync_eq_rebuild ext fs true hd hp (Or.inl rfl)]
  refine ⟨syncRebuild_extracted ext fs, ?_, ?_⟩
  · intro h
    rw [syncRebuild_of_chunks_empty ext fs h]
    exact ⟨rfl, rfl⟩
  · intro h
    rw [syncRebuild_of_docs ext fs h]

/-- Witness for C6: the two-file tenant of the C1 counterexample, where
`b.pdf` fails extraction and `a.pdf` succeeds. -/
theorem C6_rebuild_fault_handling_witness :
    (build_or_update_vector_store extC1 fsC1 true).extracted = fsC1.pdfFiles ∧
    (allChunks extC1 fsC1 = [] →
      (build_or_update_vector_store extC1 fsC1 true).ret = .err .runtime ∧
      (build_or_update_vector_store extC1 fsC1 true).fs = fsC1) ∧
    (split_text_into_documents (allChunks extC1 fsC1) ≠ [] →
      (build_or_update_vector_store extC1 fsC1 true).ret =
        .ok (split_text_into_documents (allChunks extC1 fsC1))) :=
  C6_rebuild_fault_handling extC1 fsC1 rfl (by decide)

/-- C3: tenant with directory `{A, B}`, ledger `{A}` and a valid index whose
count is `chunks(A)`: an incremental sync persists a ledger of exactly
`[A, B]`, returns a store of `chunks(A) + chunks(B)` documents (saved to
disk), and attempts extraction only on `B` — `A` is neither re-extracted nor
re-embedded. -/
theorem C3_incremental_add (ext : String → Option (List TextChunk)) (fs : FS)
    (A B : String) (storedA : List Doc) (ca cb : List TextChunk)
    (hd : fs.companyDirExists = true)
    (hpdfs : fs.pdfFiles = [A, B])
    (hAB : A ≠ B)
    (hidx : fs.indexOnDisk = some storedA)
    (hledger : fs.ledgerOnDisk = some [A])
    (hextA : ext A = some ca)
    (hcount : storedA.length = (split_text_into_documents ca).length)
    (hextB : ext B = some cb)
    (hcb : split_text_into_documents cb ≠ []) :
    (build_or_update_vector_store ext fs false).fs.ledgerOnDisk = some [A, B] ∧
    (build_or_update_vector_store ext fs false).ret =
      .ok (storedA ++ split_text_into_documents cb) ∧
    (storedA ++ split_text_into_documents cb).length =
      (split_text_into_documents ca).length + (split_text_into_documents cb).length ∧
    (build_or_update_vector_store ext fs false).fs.indexOnDisk =
      some (storedA ++ split_text_into_documents cb) ∧
    (build_or_update_vector_store ext fs false).extracted = [B] ∧
    A ∉ (build_or_update_vector_store ext fs false).extracted := by
  have hp : fs.pdfFiles ≠ [] := by rw [hpdfs]; simp
  have hBA : B ≠ A := Ne.symm hAB
  have hproc : load_processed_files fs = [A] := by
    unfold load_processed_files
    rw [hledger]
    rfl
  have hnew : newPdfs fs = [B] := by
    unfold newPdfs
    rw [hpdfs, hproc]
    simp [List.filter, hBA]
  have hloop : incrLoop ext ([], load_processed_files fs) (newPdfs fs) =
      (split_text_into_documents cb, [A, B]) := by
    rw [hnew, hproc]
    unfold incrLoop
    rw [hextB]
    unfold incrLoop
    simp [addToSet, hBA]
  have hnewne : newPdfs fs ≠ [] := by rw [hnew]; simp
  have hstep : (incrLoop ext ([], load_processed_files fs) (newPdfs fs)).1 ≠ [] := by
    rw [hloop]
    exact hcb
  rw [sync_eq_incr ext fs storedA hd hp hidx, incr_eq_save ext fs storedA hnewne hstep, hloop]
  refine ⟨rfl, rfl, ?_, rfl, hnew, ?_⟩
  · rw [List.length_append, hcount]
  · rw [hnew]
    simp [hAB]

theorem mem_newPdfs {fs : FS} {p : String} :
    p ∈ newPdfs fs ↔ p ∈ fs.pdfFiles ∧ ¬ p ∈ load_processed_files fs := by
  unfold newPdfs
  simp [List.mem_filter]

theorem newPdfs_eq_nil (fs : FS)
    (h : ∀ p ∈ fs.pdfFiles, p ∈ load_processed_files fs) : newPdfs fs = [] := by
  unfold newPdfs
  rw [List.filter_eq_nil_iff]
  intro a ha
  simpa using h a ha

theorem incrLoop_fst_append (ext : String → Option (List TextChunk)) :
    ∀ (l : List String) (acc : List Doc × List String),
      ∃ t, (incrLoop ext acc l).1 = acc.1 ++ t := by
  intro l
  induction l with
  | nil => intro acc; exact ⟨[], (List.append_nil _).symm⟩
  | cons p rest ih =>
    intro acc
    unfold incrLoop
    rcases hp : ext p with _ | chunks
    · exact ih acc
    · obtain ⟨t, ht⟩ := ih (acc.1 ++ split_text_into_documents chunks, addToSet acc.2 p)
      exact ⟨split_text_into_documents chunks ++ t, by rw [ht, List.append_assoc]⟩

theorem incrLoop_fst_all_empty (ext : String → Option (List TextChunk)) :
    ∀ (l : List String) (acc : List Doc × List String),
      (∀ p ∈ l, split_text_into_documents ((ext p).getD []) = []) →
      (incrLoop ext acc l).1 = acc.1 := by
  intro l
  induction l with
  | nil => intro acc _; rfl
  | cons p rest ih =>
    intro acc h
    unfold incrLoop
    rcases hp : ext p with _ | chunks
    · exact ih acc fun q hq => h q (List.mem_cons_of_mem p hq)
    · have hsp : split_text_into_documents chunks = [] := by
        have := h p (List.mem_cons_self _ _)
        rwa [hp] at this
      show (incrLoop ext (acc.1 ++ split_text_into_documents chunks, addToSet acc.2 p) rest).1
        = acc.1
      rw [hsp, List.append_nil]
      exact ih _ fun q hq => h q (List.mem_cons_of_mem p hq)

theorem incrLoop_fst_nil_sources (ext : String → Option (List TextChunk)) :
    ∀ (l : List String) (acc : List Doc × List String),
      (incrLoop ext acc l).1 = [] →
      ∀ p ∈ l, split_text_into_documents ((ext p).getD []) = [] := by
  intro l
  induction l with
  | nil => intro acc _ p hp; exact absurd hp (List.not_mem_nil p)
  | cons q rest ih =>
    intro acc h p hp
    unfold incrLoop at h
    rcases hq : ext q with _ | chunks
    · rw [hq] at h
      rcases List.mem_cons.mp hp with rfl | hp'
      · rw [hq]
        rfl
      · exact ih acc h p hp'
    · rw [hq] at h
      have h2 : (incrLoop ext
          (acc.1 ++ split_text_into_documents chunks, addToSet acc.2 q) rest).1 = [] := h
      obtain ⟨t, ht⟩ := incrLoop_fst_append ext rest
        (acc.1 ++ split_text_into_documents chunks, addToSet acc.2 q)
      have h3 : (acc.1 ++ split_text_into_documents chunks) ++ t = [] := ht ▸ h2
      have hsp : split_text_into_documents chunks = [] :=
        (List.append_eq_nil.mp (List.append_eq_nil.mp h3).1).2
      rcases List.mem_cons.mp hp with rfl | hp'
      · rw [hq]
        exact hsp
      · exact ih _ h2 p hp'

theorem syncRebuild_ok_eq (ext : String → Option (List TextChunk)) (fs : FS) (d : List Doc)
    (h : (syncRebuild ext fs).ret = .ok d) :
    d = split_text_into_documents (allChunks ext fs) ∧ d ≠ [] ∧
    syncRebuild ext fs =
      { ret := .ok d,
        fs := { fs with indexOnDisk := some d, ledgerOnDisk := some fs.pdfFiles },
        extracted := fs.pdfFiles,
        recursedRebuild := false } := by
  unfold syncRebuild at h ⊢
  split at h
  · exact absurd h (by simp)
  · split at h
    · exact absurd h (by simp)
    · rename_i h1 h2
      rw [if_neg h1, if_neg h2]
      simp only [SyncRet.ok.injEq] at h
      subst h
      exact ⟨rfl, h2, rfl⟩

theorem sync_second_noop_core (ext : String → Option (List TextChunk)) (fs1 : FS) (d : List Doc)
    (hd : fs1.companyDirExists = true) (hp : fs1.pdfFiles ≠ [])
    (hidx : fs1.indexOnDisk = some d)
    (hkey : ∀ p ∈ newPdfs fs1, split_text_into_documents ((ext p).getD []) = [])
    (hvalid : newPdfs fs1 = [] → d ≠ []) :
    build_or_update_vector_store ext fs1 false =
      { ret := .ok d, fs := fs1, extracted := newPdfs fs1, recursedRebuild := false } := by
  rw [sync_eq_incr ext fs1 d hd hp hidx]
  by_cases hnew : newPdfs fs1 = []
  · rw [incr_eq_noop ext fs1 d hnew (hvalid hnew), hnew]
  · rw [incr_eq_nodocs ext fs1 d hnew (incrLoop_fst_all_empty ext (newPdfs fs1) _ hkey)]

/-- C4: with a tenant whose first `force_rebuild=false` sync call succeeded
and no filesystem change in between, the second `force_rebuild=false` call
is a no-op: it returns the same store with the same document count and
writes neither the index nor the ledger file (the filesystem after the
second call is the one after the first). -/
theorem C4_second_sync_noop (ext : String → Option (List TextChunk)) (fs : FS) (d : List Doc)
    (h : (build_or_update_vector_store ext fs false).ret = .ok d) :
    (build_or_update_vector_store ext
        (build_or_update_vector_store ext fs false).fs false).ret = .ok d ∧
    (build_or_update_vector_store ext
        (build_or_update_vector_store ext fs false).fs false).fs =
      (build_or_update_vector_store ext fs false).fs := by
  by_cases hpre : fs.companyDirExists = false ∨ fs.pdfFiles = []
  · rw [sync_eq_notFound ext fs false hpre] at h
    exact absurd h (by simp)
  obtain ⟨hdne, hpne⟩ := not_or.mp hpre
  have hd : fs.companyDirExists = true := by simpa using hdne
  have hd1 : (build_or_update_vector_store ext fs false).fs.companyDirExists = true := by
    rw [(sync_dir_pdfs ext fs false).1]
    exact hd
  have hp1 : (build_or_update_vector_store ext fs false).fs.pdfFiles ≠ [] := by
    rw [(sync_dir_pdfs ext fs false).2]
    exact hpne
  have hidx1 := sync_ok_index ext fs false d h
  have hmain : (∀ p ∈ newPdfs (build_or_update_vector_store ext fs false).fs,
        split_text_into_documents ((ext p).getD []) = []) ∧
      (newPdfs (build_or_update_vector_store ext fs false).fs = [] → d ≠ []) := by
    rcases hidx : fs.indexOnDisk with _ | stored
    · rw [sync_eq_rebuild ext fs false hd hpne (Or.inr hidx)] at h ⊢
      obtain ⟨-, hdne', heq⟩ := syncRebuild_ok_eq ext fs d h
      rw [heq]
      have hnil : newPdfs
          { fs with indexOnDisk := some d, ledgerOnDisk := some fs.pdfFiles } = [] := by
        apply newPdfs_eq_nil
        intro p hp
        simpa [load_processed_files] using hp
      refine ⟨?_, fun _ => hdne'⟩
      rw [hnil]
      intro p hp
      exact absurd hp (List.not_mem_nil p)
    · rw [sync_eq_incr ext fs stored hd hpne hidx] at h ⊢
      by_cases hnew : newPdfs fs = []
      · by_cases hst : stored = []
        · subst hst
          rw [incr_eq_recurse ext fs hnew] at h ⊢
          obtain ⟨-, hdne', heq⟩ := syncRebuild_ok_eq ext fs d h
          rw [heq]
          have hnil : newPdfs
              { fs with indexOnDisk := some d, ledgerOnDisk := some fs.pdfFiles } = [] := by
            apply newPdfs_eq_nil
            intro p hp
            simpa [load_processed_files] using hp
          refine ⟨?_, fun _ => hdne'⟩
          intro p hp
          have hp2 : p ∈ newPdfs
              { fs with indexOnDisk := some d, ledgerOnDisk := some fs.pdfFiles } := hp
          rw [hnil] at hp2
          exact absurd hp2 (List.not_mem_nil p)
        · rw [incr_eq_noop ext fs stored hnew hst] at h ⊢
          have hsd : stored = d := by simpa using h
          subst hsd
          refine ⟨?_, fun _ => hst⟩
          intro p hp
          have : p ∈ newPdfs fs := by simpa using hp
          rw [hnew] at this
          exact absurd this (List.not_mem_nil p)
      · by_cases hstep : (incrLoop ext ([], load_processed_files fs) (newPdfs fs)).1 = []
        · rw [incr_eq_nodocs ext fs stored hnew hstep] at h ⊢
          have hsd : stored = d := by simpa using h
          subst hsd
          refine ⟨?_, ?_⟩
          · intro p hp
            exact incrLoop_fst_nil_sources ext (newPdfs fs) _ hstep p (by simpa using hp)
          · intro hnil
            exact absurd (by simpa using hnil) hnew
        · rw [incr_eq_save ext fs stored hnew hstep] at h ⊢
          have hsd : stored ++ (incrLoop ext ([], load_processed_files fs) (newPdfs fs)).1
              = d := by simpa using h
          refine ⟨?_, ?_⟩
          · intro p hp
            have hp2 : p ∈ newPdfs { fs with
                indexOnDisk := some (stored ++
                  (incrLoop ext ([], load_processed_files fs) (newPdfs fs)).1),
                ledgerOnDisk := some
                  (incrLoop ext ([], load_processed_files fs) (newPdfs fs)).2 } := by
              simpa using hp
            obtain ⟨hpf, hpnot⟩ := mem_newPdfs.mp hp2
            have hpnotproc : ¬ p ∈ load_processed_files fs := by
              intro hmem
              exact hpnot (incrLoop_ledger_mono ext (newPdfs fs) _ p hmem)
            have hpnew : p ∈ newPdfs fs := mem_newPdfs.mpr ⟨by simpa using hpf, hpnotproc⟩
            rcases hep : ext p with _ | c
            · rfl
            · exact absurd (incrLoop_ledger_of_success ext (newPdfs fs) _ p hpnew
                (by rw [hep]; exact fun e => Option.noConfusion e)) hpnot
          · intro _ hcontra
            rw [← hsd] at hcontra
            exact hstep (List.append_eq_nil.mp hcontra).2
  have hfinal := sync_second_noop_core ext _ d hd1 hp1 hidx1 hmain.1 hmain.2
  rw [hfinal]
  exact ⟨rfl, rfl⟩

/-! ### The chunker (C8) -/

theorem splitTextGo_length (size step : Nat) :
    ∀ (fuel : Nat) (s : List Char), ∀ c ∈ splitTextGo size step fuel s, c.length ≤ size := by
  intro fuel
  induction fuel with
  | zero =>
    intro s c hc
    simp [splitTextGo] at hc
  | succ n ih =>
    intro s c hc
    match s with
    | [] => simp [splitTextGo] at hc
    | a :: t =>
      unfold splitTextGo at hc
      split at hc
      · rename_i hle
        rw [List.mem_singleton.mp hc]
        exact hle
      · rcases List.mem_cons.mp hc with rfl | hc'
        · simpa using Nat.min_le_left size (a :: t).length
        · exact ih _ c hc'

theorem splitText_length (s : List Char) :
    ∀ c ∈ splitText splitter_chunk_size splitter_chunk_overlap s,
      c.length ≤ splitter_chunk_size := by
  intro c hc
  unfold splitText at hc
  split at hc
  · exact absurd hc (List.not_mem_nil c)
  · exact splitTextGo_length _ _ _ s c hc

theorem split_text_into_documents_sources (tcs : List TextChunk) :
    ∀ d ∈ split_text_into_documents tcs,
      ∃ tc ∈ tcs, d.page = tc.2.1 ∧ d.source = tc.2.2 ∧
        d.content ∈ splitText splitter_chunk_size splitter_chunk_overlap tc.1 := by
  intro d hd
  unfold split_text_into_documents at hd
  rw [List.mem_flatMap] at hd
  obtain ⟨tc, htc, hd2⟩ := hd
  rw [List.mem_map] at hd2
  obtain ⟨c, hc, rfl⟩ := hd2
  exact ⟨tc, htc, rfl, rfl, hc⟩

theorem splitText_overlap (s : List Char) (h : splitter_chunk_size < s.length) :
    ∃ c1 rest, splitText splitter_chunk_size splitter_chunk_overlap s =
        s.take splitter_chunk_size :: c1 :: rest ∧
      (s.take splitter_chunk_size).drop
          (splitter_chunk_size - splitter_chunk_overlap) =
        c1.take splitter_chunk_overlap := by
  have hsz : splitter_chunk_size = 1000 := rfl
  have hov : splitter_chunk_overlap = 100 := rfl
  rw [hsz, hov] at *
  have hne : s ≠ [] := by
    intro e
    rw [e] at h
    simp at h
  unfold splitText
  rw [if_neg hne, hsz, hov]
  have hlen : ¬ s.length ≤ 1000 := Nat.not_le.mpr h
  obtain ⟨n, hn⟩ : ∃ n, s.length = n + 1 :=
    ⟨s.length - 1, by omega⟩
  rcases s with _ | ⟨a, t⟩
  · exact absurd rfl hne
  · rw [hn]
    unfold splitTextGo
    rw [if_neg hlen]
    have hdlen : ((a :: t).drop 900).length = (a :: t).length - 900 := by
      simp
    have hdne : (a :: t).drop 900 ≠ [] := by
      intro e
      have : ((a :: t).drop 900).length = 0 := by rw [e]; rfl
      omega
    have hn1 : ∃ m, n = m + 1 := ⟨n - 1, by omega⟩
    obtain ⟨m, rfl⟩ := hn1
    obtain ⟨b, u, hbu⟩ : ∃ b u, (a :: t).drop 900 = b :: u := by
      rcases hdd : (a :: t).drop 900 with _ | ⟨b, u⟩
      · exact absurd hdd hdne
      · exact ⟨b, u, rfl⟩
    rw [hbu]
    unfold splitTextGo
    split
    · refine ⟨b :: u, [], rfl, ?_⟩
      rw [List.drop_take 1000 900 (a :: t), hbu]
    · refine ⟨(b :: u).take 1000,
        splitTextGo 1000 (1000 - 100) m ((b :: u).drop (1000 - 100)), rfl, ?_⟩
      rw [List.drop_take 1000 900 (a :: t), hbu, List.take_take]
      norm_num

/-- C8: the chunker is deterministic — two invocations of
`split_text_into_documents` on identical extractor output yield identical
chunk sequences — and operates with the fixed configuration of the source:
every produced chunk carries the `{page, source}` metadata of its
originating tuple and holds at most `splitter_chunk_size` characters, the
configured chunk size is 1000 and the overlap 100, and on any text longer
than the chunk size the first two chunks share exactly the configured
overlap. -/
theorem C8_chunker_deterministic (tcs1 tcs2 : List TextChunk) (h : tcs1 = tcs2) :
    split_text_into_documents tcs1 = split_text_into_documents tcs2 ∧
    (∀ d ∈ split_text_into_documents tcs1,
      d.content.length ≤ splitter_chunk_size ∧
      ∃ tc ∈ tcs1, d.page = tc.2.1 ∧ d.source = tc.2.2) ∧
    splitter_chunk_size = 1000 ∧ splitter_chunk_overlap = 100 ∧
    (∀ s : List Char, splitter_chunk_size < s.length →
      ∃ c1 rest, splitText splitter_chunk_size splitter_chunk_overlap s =
          s.take splitter_chunk_size :: c1 :: rest ∧
        (s.take splitter_chunk_size).drop
            (splitter_chunk_size - splitter_chunk_overlap) =
          c1.take splitter_chunk_overlap) := by
  subst h
  refine ⟨rfl, ?_, rfl, rfl, splitText_overlap⟩
  intro d hd
  obtain ⟨tc, htc, hpage, hsource, hc⟩ := split_text_into_documents_sources tcs1 d hd
  exact ⟨splitText_length tc.1 d.content hc, tc, htc, hpage, hsource⟩

/-- Witness for C8 at a concrete one-page extractor output. -/
theorem C8_chunker_deterministic_witness :
    split_text_into_documents [(['x'], 1, "a.pdf")] =
      split_text_into_documents [(['x'], 1, "a.pdf")] ∧
    (∀ d ∈ split_text_into_documents [(['x'], 1, "a.pdf")],
      d.content.length ≤ splitter_chunk_size ∧
      ∃ tc ∈ [((['x'], 1, "a.pdf") : TextChunk)], d.page = tc.2.1 ∧ d.source = tc.2.2) ∧
    splitter_chunk_size = 1000 ∧ splitter_chunk_overlap = 100 ∧
    (∀ s : List Char, splitter_chunk_size < s.length →
      ∃ c1 rest, splitText splitter_chunk_size splitter_chunk_overlap s =
          s.take splitter_chunk_size :: c1 :: rest ∧
        (s.take splitter_chunk_size).drop
            (splitter_chunk_size - splitter_chunk_overlap) =
          c1.take splitter_chunk_overlap) :=
  C8_chunker_deterministic [(['x'], 1, "a.pdf")] [(['x'], 1, "a.pdf")] rfl

/-- The extraction oracle of the C3 witness: both PDFs extract to one page
of text each. -/
def extC3 : String → Option (List TextChunk) := fun f =>
  if f = "a.pdf" then some [(['x'], 1, "a.pdf")]
  else if f = "b.pdf" then some [(['y'], 1, "b.pdf")] else none

/-- The C3 witness tenant: `a.pdf` indexed with ledger `["a.pdf"]`, `b.pdf`
newly added. -/
def fsC3 : FS :=
  { companyDirExists := true, pdfFiles := ["a.pdf", "b.pdf"],
    indexOnDisk := some [{ content := ['x'], page := 1, source := "a.pdf" }],
    ledgerOnDisk := some ["a.pdf"] }

/-- Witness for C3 at the concrete two-file tenant. -/
theorem C3_incremental_add_witness :
    (build_or_update_vector_store extC3 fsC3 false).fs.ledgerOnDisk =
      some ["a.pdf", "b.pdf"] ∧
    (build_or_update_vector_store extC3 fsC3 false).ret =
      .ok ([{ content := ['x'], page := 1, source := "a.pdf" }] ++
        split_text_into_documents [(['y'], 1, "b.pdf")]) ∧
    ([({ content := ['x'], page := 1, source := "a.pdf" } : Doc)] ++
        split_text_into_documents [(['y'], 1, "b.pdf")]).length =
      (split_text_into_documents [(['x'], 1, "a.pdf")]).length +
        (split_text_into_documents [(['y'], 1, "b.pdf")]).length ∧
    (build_or_update_vector_store extC3 fsC3 false).fs.indexOnDisk =
      some ([{ content := ['x'], page := 1, source := "a.pdf" }] ++
        split_text_into_documents [(['y'], 1, "b.pdf")]) ∧
    (build_or_update_vector_store extC3 fsC3 false).extracted = ["b.pdf"] ∧
    "a.pdf" ∉ (build_or_update_vector_store extC3 fsC3 false).extracted :=
  C3_incremental_add extC3 fsC3 "a.pdf" "b.pdf"
    [{ content := ['x'], page := 1, source := "a.pdf" }]
    [(['x'], 1, "a.pdf")] [(['y'], 1, "b.pdf")]
    rfl rfl (by decide) rfl rfl rfl (by decide) rfl (by decide)

/-- The C4 witness tenant: one indexed PDF, ledger complete, index valid. -/
def fsC4 : FS :=
  { companyDirExists := true, pdfFiles := ["a.pdf"],
    indexOnDisk := some [{ content := ['x'], page := 1, source := "a.pdf" }],
    ledgerOnDisk := some ["a.pdf"] }

/-- Witness for C4: after a successful sync of the concrete tenant, the
second sync returns the same store and leaves the filesystem untouched. -/
theorem C4_second_sync_noop_witness :
    (build_or_update_vector_store extC1
        (build_or_update_vector_store extC1 fsC4 false).fs false).ret =
      .ok [{ content := ['x'], page := 1, source := "a.pdf" }] ∧
    (build_or_update_vector_store extC1
        (build_or_update_vector_store extC1 fsC4 false).fs false).fs =
      (build_or_update_vector_store extC1 fsC4 false).fs :=
  C4_second_sync_noop extC1 fsC4
    [{ content := ['x'], page := 1, source := "a.pdf" }] (by decide)

/-! ### Helper lemmas about the agent cache -/

theorem alookup_cons {α : Type} (p : Nat × α) (l : List (Nat × α)) (k : Nat) :
    alookup (p :: l) k = if p.1 = k then some p.2 else alookup l k := by
  by_cases h : p.1 = k
  · simp [alookup, List.find?, h]
  · simp [alookup, List.find?, h]

theorem alookup_map_replace_ne {α : Type} (k k' : Nat) (v : α) (hne : k ≠ k') :
    ∀ l : List (Nat × α),
      alookup (l.map fun p => if p.1 = k then (k, v) else p) k' = alookup l k' := by
  intro l
  induction l with
  | nil => rfl
  | cons q rest ih =>
    simp only [List.map_cons]
    by_cases hqk : q.1 = k
    · rw [if_pos hqk, alookup_cons, alookup_cons, if_neg hne, if_neg (by rw [hqk]; exact hne)]
      exact ih
    · rw [if_neg hqk, alookup_cons, alookup_cons]
      by_cases hqk' : q.1 = k'
      · rw [if_pos hqk', if_pos hqk']
      · rw [if_neg hqk', if_neg hqk']
        exact ih

theorem alookup_aupdate {α : Type} (l : List (Nat × α)) (k k' : Nat) (v : α) :
    alookup (aupdate l k v) k' = if k = k' then some v else alookup l k' := by
  unfold aupdate
  split
  · rename_i hany
    induction l with
    | nil => simp at hany
    | cons p rest ih =>
      simp only [List.any_cons, Bool.or_eq_true, decide_eq_true_eq] at hany
      simp only [List.map_cons]
      by_cases hpk : p.1 = k
      · rw [if_pos hpk, alookup_cons]
        by_cases hkk : k = k'
        · rw [if_pos (show (k, v).1 = k' from hkk), if_pos hkk]
        · rw [if_neg (show ¬ (k, v).1 = k' from hkk), if_neg hkk,
            alookup_map_replace_ne k k' v hkk rest, alookup_cons,
            if_neg (by rw [hpk]; exact hkk)]
      · rw [if_neg hpk, alookup_cons]
        have hrest : rest.any (fun p => p.1 = k) = true := by
          rcases hany with h | h
          · exact absurd h hpk
          · simpa using h
        by_cases hkk : k = k'
        · rw [if_pos hkk, if_neg (by rw [← hkk]; exact hpk)]
          have := ih (by simpa using hrest)
          rw [if_pos hkk] at this
          exact this
        · rw [if_neg hkk, alookup_cons]
          by_cases hpk' : p.1 = k'
          · rw [if_pos hpk', if_pos hpk']
          · rw [if_neg hpk', if_neg hpk']
            exact alookup_map_replace_ne k k' v hkk rest
  · rename_i hany
    induction l with
    | nil =>
      rw [List.nil_append, alookup_cons]
    | cons p rest ih =>
      simp only [List.any_cons, Bool.or_eq_true, decide_eq_true_eq, not_or] at hany
      rw [List.cons_append, alookup_cons, alookup_cons]
      by_cases hpk' : p.1 = k'
      · rw [if_pos hpk', if_pos hpk']
        by_cases hkk : k = k'
        · exact absurd (hkk.trans hpk'.symm).symm hany.1
        · rw [if_neg hkk]
      · rw [if_neg hpk', if_neg hpk']
        have := ih (by simpa using hany.2)
        exact this

theorem alookup_aerase {α : Type} (l : List (Nat × α)) (k k' : Nat) :
    alookup (aerase l k) k' = if k = k' then none else alookup l k' := by
  induction l with
  | nil =>
    unfold aerase
    by_cases hkk : k = k'
    · rw [if_pos hkk]
      rfl
    · rw [if_neg hkk]
      rfl
  | cons p rest ih =>
    unfold aerase at ih ⊢
    rw [List.filter_cons]
    by_cases hpk : p.1 = k
    · rw [if_neg (by simpa using hpk), alookup_cons]
      by_cases hkk : k = k'
      · rw [if_pos hkk] at ih ⊢
        exact ih
      · rw [if_neg hkk] at ih ⊢
        rw [ih, if_neg (by rw [hpk]; exact hkk)]
    · rw [if_pos (by simpa using hpk), alookup_cons, alookup_cons, ih]
      by_cases hpk' : p.1 = k'
      · rw [if_pos hpk', if_pos hpk']
        by_cases hkk : k = k'
        · exact absurd (hpk'.trans hkk.symm) hpk
        · rw [if_neg hkk]
      · rw [if_neg hpk', if_neg hpk']

theorem alookup_mem {α : Type} {l : List (Nat × α)} {k : Nat} {v : α}
    (h : alookup l k = some v) : (k, v) ∈ l := by
  unfold alookup at h
  rcases hf : l.find? fun p => p.1 = k with _ | q
  · rw [hf] at h
    exact absurd h (by simp)
  · rw [hf] at h
    have hq := List.find?_some hf
    have hmem := List.mem_of_find?_eq_some hf
    simp only [decide_eq_true_eq] at hq
    have hv : q.2 = v := by simpa using h
    have hqe : (k, v) = q := by
      rcases q with ⟨q1, q2⟩
      simp only at hq hv
      rw [hq, hv]
    rw [hqe]
    exact hmem

theorem aupdate_key_val {α : Type} (l : List (Nat × α)) (k : Nat) (v : α) :
    ∀ p ∈ aupdate l k v, p.1 = k → p.2 = v := by
  unfold aupdate
  split
  · intro p hp hpk
    obtain ⟨q, hq, hqe⟩ := List.mem_map.mp hp
    by_cases hqk : q.1 = k
    · rw [if_pos hqk] at hqe
      rw [← hqe]
    · rw [if_neg hqk] at hqe
      rw [← hqe] at hpk
      exact absurd hpk hqk
  · rename_i hany
    intro p hp hpk
    rcases List.mem_append.mp hp with h | h
    · exfalso
      apply hany
      exact List.any_eq_true.mpr ⟨p, h, by simpa using hpk⟩
    · rw [List.mem_singleton.mp h]

theorem mem_aupdate {α : Type} (l : List (Nat × α)) (k : Nat) (v : α) :
    ∀ p ∈ aupdate l k v, p ∈ l ∨ p = (k, v) := by
  unfold aupdate
  split
  · intro p hp
    obtain ⟨q, hq, hqe⟩ := List.mem_map.mp hp
    by_cases hqk : q.1 = k
    · right
      rw [← hqe, if_pos hqk]
    · left
      rw [← hqe, if_neg hqk]
      exact hq
  · intro p hp
    rcases List.mem_append.mp hp with h | h
    · exact Or.inl h
    · exact Or.inr (List.mem_singleton.mp h)

theorem removeAgent_agents_ne (s : AMState) (c cid : Nat) (h : c ≠ cid) :
    alookup (removeAgent s c).agents cid = alookup s.agents cid := by
  unfold removeAgent
  split
  · rfl
  · show alookup (aerase s.agents c) cid = alookup s.agents cid
    rw [alookup_aerase, if_neg h]

theorem foldl_removeAgent_agents :
    ∀ (l : List Nat) (s : AMState) (cid : Nat), (∀ c ∈ l, c ≠ cid) →
      alookup (l.foldl removeAgent s).agents cid = alookup s.agents cid := by
  intro l
  induction l with
  | nil => intro s cid _; rfl
  | cons c rest ih =>
    intro s cid h
    rw [List.foldl_cons, ih (removeAgent s c) cid fun x hx => h x (List.mem_cons_of_mem c hx),
      removeAgent_agents_ne s c cid (h c (List.mem_cons_self _ _))]

/-- The inductive invariant of reachable manager states: the `memories` dict
is empty and every cached agent token is below the fresh counter. -/
def AMInv (s : AMState) : Prop :=
  s.memories = [] ∧ ∀ p ∈ s.agents, p.2.agent < s.nextAgentId

theorem inv_removeAgent (s : AMState) (c : Nat) (h : AMInv s) : AMInv (removeAgent s c) := by
  unfold removeAgent
  split
  · exact h
  · constructor
    · show aerase s.memories c = []
      rw [h.1]
      rfl
    · intro p hp
      exact h.2 p (List.mem_of_mem_filter hp)

theorem inv_foldl_removeAgent (l : List Nat) :
    ∀ s : AMState, AMInv s → AMInv (l.foldl removeAgent s) := by
  induction l with
  | nil => intro s h; exact h
  | cons c rest ih =>
    intro s h
    rw [List.foldl_cons]
    exact ih (removeAgent s c) (inv_removeAgent s c h)

theorem inv_createAgent (s : AMState) (cid : Nat) (now : Int) (h : AMInv s) :
    AMInv (createAgent s cid now).2 := by
  unfold createAgent cleanupOldAgents
  apply inv_foldl_removeAgent
  constructor
  · exact h.1
  · intro p hp
    rcases mem_aupdate s.agents cid { agent := s.nextAgentId, created_at := now } p hp with
      hmem | heq
    · exact Nat.lt_succ_of_lt (h.2 p hmem)
    · rw [heq]
      exact Nat.lt_succ_self _

theorem inv_get_agent (s : AMState) (cid : Nat) (now : Int) (h : AMInv s) :
    AMInv (get_agent s cid now).2 := by
  unfold get_agent
  split
  · split
    · exact ⟨h.1, h.2⟩
    · exact inv_createAgent _ cid now (inv_removeAgent s cid h)
  · exact inv_createAgent s cid now h

theorem inv_reset (s : AMState) (cid : Nat) (h : AMInv s) :
    AMInv (reset_agent_memory s cid).2 := by
  unfold reset_agent_memory
  split
  · exact h
  · rename_i hsome
    exfalso
    apply hsome
    rw [h.1]
    rfl

theorem inv_force_remove (s : AMState) (cid : Nat) (h : AMInv s) :
    AMInv (force_remove_agent s cid).2 := by
  unfold force_remove_agent
  split
  · exact inv_removeAgent s cid h
  · exact h

theorem reachable_inv (s : AMState) (h : Reachable s) : AMInv s := by
  induction h with
  | init m t =>
    exact ⟨rfl, fun p hp => absurd hp (List.not_mem_nil p)⟩
  | step_get s cid now _ ih => exact inv_get_agent s cid now ih
  | step_reset s cid _ ih => exact inv_reset s cid ih
  | step_clear s cid _ ih => exact ih
  | step_force_remove s cid _ ih => exact inv_force_remove s cid ih
  | step_force_update s cid _ ih => exact inv_force_remove s cid ih

theorem removeAgent_fields (s : AMState) (c : Nat) :
    (removeAgent s c).nextAgentId = s.nextAgentId ∧
    (removeAgent s c).agent_ttl = s.agent_ttl := by
  unfold removeAgent
  split
  · exact ⟨rfl, rfl⟩
  · exact ⟨rfl, rfl⟩

theorem createAgent_alookup (s : AMState) (cid : Nat) (now : Int)
    (httl : 0 ≤ s.agent_ttl) :
    (createAgent s cid now).1 = s.nextAgentId ∧
    alookup (createAgent s cid now).2.agents cid =
      some { agent := s.nextAgentId, created_at := now } := by
  refine ⟨rfl, ?_⟩
  unfold createAgent cleanupOldAgents
  have hkey : ∀ c ∈ ((aupdate s.last_used cid now).filter
      fun p => now - p.2 > s.agent_ttl).map fun p => p.1, c ≠ cid := by
    intro c hc hceq
    obtain ⟨p, hp, hp1⟩ := List.mem_map.mp hc
    have hpmem := List.mem_of_mem_filter hp
    have hpf := List.of_mem_filter hp
    have hpv : p.2 = now :=
      aupdate_key_val s.last_used cid now p hpmem (by rw [hp1, hceq])
    simp only [decide_eq_true_eq] at hpf
    rw [hpv] at hpf
    omega
  have h2 : alookup (aupdate s.agents cid
      { agent := s.nextAgentId, created_at := now }) cid =
      some { agent := s.nextAgentId, created_at := now } := by
    rw [alookup_aupdate, if_pos rfl]
  exact (foldl_removeAgent_agents _ _ cid hkey).trans h2

/-- C9: in every reachable `AgentManager` state the `memories` dict is empty
(no operation ever inserts into it — `get_agent` stores the conversation
memory only inside the agent object), so `reset_agent_memory` returns
`False` for every company id and changes nothing. -/
theorem C9_reset_memory_false (s : AMState) (hreach : Reachable s) :
    s.memories = [] ∧
    ∀ cid : Nat, reset_agent_memory s cid = (false, s) := by
  have hinv := reachable_inv s hreach
  refine ⟨hinv.1, fun cid => ?_⟩
  unfold reset_agent_memory
  rw [if_pos (show alookup s.memories cid = none by rw [hinv.1]; rfl)]

/-- Witness for C9 at the freshly constructed manager. -/
theorem C9_reset_memory_false_witness :
    (AMState.init 10 3600).memories = [] ∧
    ∀ cid : Nat, reset_agent_memory (AMState.init 10 3600) cid =
      (false, AMState.init 10 3600) :=
  C9_reset_memory_false (AMState.init 10 3600) (Reachable.init 10 3600)

theorem get_agent_cached (s : AMState) (cid : Nat) (now : Int) (info : AgentInfo)
    (h : alookup s.agents cid = some info) :
    get_agent s cid now =
      if now - ((alookup s.last_used cid).getD 0) < s.agent_ttl then
        (info.agent, { s with last_used := aupdate s.last_used cid now })
      else createAgent (removeAgent s cid) cid now := by
  unfold get_agent
  rw [h]

/-- C7: for a cached agent of a manager with `ttl = 3600`, a `get_agent`
call strictly less than ttl seconds after the last use returns the cached
agent object unchanged and only refreshes `last_used`; a call strictly more
than ttl seconds after the last use evicts the entry and constructs a new
agent (a fresh object, stored with the current time). -/
theorem C7_agent_ttl (s : AMState) (cid : Nat) (info : AgentInfo) (t now : Int)
    (hreach : Reachable s)
    (hagent : alookup s.agents cid = some info)
    (hlast : alookup s.last_used cid = some t)
    (httl : s.agent_ttl = 3600) :
    (now - t < 3600 →
      (get_agent s cid now).1 = info.agent ∧
      (get_agent s cid now).2 =
        { s with last_used := aupdate s.last_used cid now }) ∧
    (now - t > 3600 →
      (get_agent s cid now).1 = s.nextAgentId ∧
      (get_agent s cid now).1 ≠ info.agent ∧
      alookup (get_agent s cid now).2.agents cid =
        some { agent := s.nextAgentId, created_at := now }) := by
  have hcond : (alookup s.last_used cid).getD 0 = t := by
    rw [hlast]
    rfl
  constructor
  · intro hlt
    rw [get_agent_cached s cid now info hagent, hcond, httl, if_pos hlt]
    exact ⟨rfl, rfl⟩
  · intro hgt
    have hnlt : ¬ now - t < 3600 := by omega
    have httl0 : 0 ≤ (removeAgent s cid).agent_ttl := by
      rw [(removeAgent_fields s cid).2, httl]
      omega
    have hcreate := createAgent_alookup (removeAgent s cid) cid now httl0
    have hnid : (removeAgent s cid).nextAgentId = s.nextAgentId :=
      (removeAgent_fields s cid).1
    rw [get_agent_cached s cid now info hagent, hcond, httl, if_neg hnlt]
    rw [hnid] at hcreate
    refine ⟨hcreate.1, ?_, hcreate.2⟩
    rw [hcreate.1]
    have hmem := alookup_mem hagent
    exact ne_of_gt ((reachable_inv s hreach).2 (cid, info) hmem)

/-- The C7 witness state: a fresh manager (`max_agents=10`, `ttl=3600`)
after one `get_agent` call for company 1 at time 100, caching agent token 0
with `last_used = 100`. -/
def amW : AMState := (get_agent (AMState.init 10 3600) 1 100).2

/-- Witness for C7 at the concrete cached state, probed at time 3699. -/
theorem C7_agent_ttl_witness :
    ((3699 : Int) - 100 < 3600 →
      (get_agent amW 1 3699).1 = ({ agent := 0, created_at := 100 } : AgentInfo).agent ∧
      (get_agent amW 1 3699).2 =
        { amW with last_used := aupdate amW.last_used 1 3699 }) ∧
    ((3699 : Int) - 100 > 3600 →
      (get_agent amW 1 3699).1 = amW.nextAgentId ∧
      (get_agent amW 1 3699).1 ≠ ({ agent := 0, created_at := 100 } : AgentInfo).agent ∧
      alookup (get_agent amW 1 3699).2.agents 1 =
        some { agent := amW.nextAgentId, created_at := 3699 }) :=
  C7_agent_ttl amW 1 { agent := 0, created_at := 100 } 100 3699
    (Reachable.step_get (AMState.init 10 3600) 1 100 (Reachable.init 10 3600))
    (by decide) (by decide) (by decide)
